import Mathlib

/-!
Verification of the Codex session/turn engine against its specification.

Shallow embedding of the Rust sources:
  * `src/codex-rs/core/src/tasks/mod.rs` (task scheduler)
  * `src/codex-rs/core/src/tasks/{regular,compact,review}.rs`
  * `src/codex-rs/rmcp-client/src/utils.rs`
  * `src/codex-rs/core/src/config_types.rs`
  * `src/codex-rs/exec/src/experimental_event_processor_with_json_output.rs`

Async Rust is modelled by explicit state passing; the interleaving of
concurrently running session operations is modelled by a labelled step
relation whose actions are the session-level operations of `tasks/mod.rs`.
-/

namespace Codex

/-! ## Task scheduler (src/codex-rs/core/src/tasks/mod.rs)

`crate::protocol` and `crate::state` are not part of the sources under
review; the enums below transcribe the variants the spec names
(`TurnAbortReason`: Replaced, UserInterrupt, Shutdown, StreamFatal;
`TaskKind`: Regular, Compact, Review). -/

/-- Modelled from the spec: abort reasons `Replaced`, `UserInterrupt`,
`Shutdown`, `StreamFatal` (spec §4.2.1); `crate::protocol` is not under
review. -/
inductive TurnAbortReason where
  | replaced
  | userInterrupt
  | shutdown
  | streamFatal
  deriving DecidableEq, Repr

/-- Modelled from the spec: `task_kind ∈ {Regular, Compact, Review}`
(spec §3, RunningTask); `crate::state` is not under review. -/
inductive TaskKind where
  | regular
  | compact
  | review
  deriving DecidableEq, Repr

/-- The event payloads the task-scheduler claims are about.  `taskComplete`
and `turnAborted` are the two lifecycle-terminal payloads of
`tasks/mod.rs`; `exitedReviewMode` is the closing event emitted by
`exit_review_mode`; `taskProgress` stands for any other task-tagged bus
event (exec begin/end, agent message, ...). -/
inductive EventMsg where
  | taskComplete (lastAgentMessage : Option String)
  | turnAborted (reason : TurnAbortReason)
  | exitedReviewMode
  | taskProgress
  deriving DecidableEq, Repr

/-- `Event { id: sub_id, msg }` from `crate::protocol`, as used in
`tasks/mod.rs`. -/
structure Event where
  id : String
  msg : EventMsg
  deriving DecidableEq, Repr

/-- `RunningTask` of `crate::state` as used by `tasks/mod.rs`:
the abort `handle` is modelled by its observable `is_finished()` bit, the
`task` trait object by its `kind` (which determines the behaviour of the
`abort()` hook: `ReviewTask` overrides it, `RegularTask` and `CompactTask`
keep the default no-op). -/
structure RunningTask where
  finished : Bool
  kind : TaskKind
  deriving DecidableEq, Repr

/-- Modelled from the spec: `ActiveTurn` of `crate::state` — the
per-session slot of running tasks addressed by `sub_id` ("an optional
`active_turn` slot holding one running task", spec §3).  Pending-approval
bookkeeping (`clear_pending`) is outside every claim and omitted. -/
structure ActiveTurn where
  tasks : List (String × RunningTask)
  deriving DecidableEq, Repr

/-- Modelled from the spec: `ActiveTurn::add_task` registers a task in the
slot under its `sub_id`. -/
def ActiveTurn.addTask (t : ActiveTurn) (subId : String) (task : RunningTask) :
    ActiveTurn :=
  ⟨t.tasks ++ [(subId, task)]⟩

/-- Modelled from the spec: `ActiveTurn::remove_task` removes the entry of
`sub_id` and reports whether the slot is now empty ("remove the slot
atomically", spec §4.2 step 4; used as `if at.remove_task(&sub_id)` in
`on_task_finished`). -/
def ActiveTurn.removeTask (t : ActiveTurn) (subId : String) :
    ActiveTurn × Bool :=
  let rest := t.tasks.filter (fun p => p.1 ≠ subId)
  (⟨rest⟩, rest.isEmpty)

/-- The session state the scheduler claims observe: the `active_turn`
slot, the chronological list of events sent on the bus (oldest first), and
the ghost list of every `sub_id` ever given to `spawn_task` (submission
ids are unique). -/
structure SessionState where
  activeTurn : Option ActiveTurn
  events : List Event
  spawned : List String
  deriving DecidableEq, Repr

/-- `Session::send_event`: append one event to the ordered bus. -/
def sendEvent (s : SessionState) (e : Event) : SessionState :=
  { s with events := s.events ++ [e] }

/-- The events emitted by the `SessionTask::abort` hook of a task of the
given kind.  `ReviewTask::abort` calls `exit_review_mode(session, sub_id,
None)`; `RegularTask` and `CompactTask` use the default no-op hook.
The body of `exit_review_mode` (`crate::codex`) is modelled from the
spec: "the Review task exits review mode and emits closing events" /
"on abort, emits a closing event (review exited)" (spec §4.2.1, §4.8). -/
def abortHookEvents (kind : TaskKind) (subId : String) : List Event :=
  match kind with
  | .review => [⟨subId, .exitedReviewMode⟩]
  | .regular => []
  | .compact => []

/-- Append a list of events in order. -/
def sendEvents (s : SessionState) (es : List Event) : SessionState :=
  { s with events := s.events ++ es }

/-- `Session::handle_task_abort` (tasks/mod.rs:140-162): if the task's
handle is already finished, do nothing; otherwise abort the handle, await
the task's `abort()` hook, then emit `TurnAborted{reason}` tagged with the
aborted `sub_id`. -/
def handleTaskAbort (s : SessionState) (subId : String) (task : RunningTask)
    (reason : TurnAbortReason) : SessionState :=
  if task.finished then s
  else
    sendEvent (sendEvents s (abortHookEvents task.kind subId))
      ⟨subId, .turnAborted reason⟩

/-- `Session::take_all_running_tasks` (tasks/mod.rs:128-138): take the
whole `active_turn` slot, returning its drained tasks. -/
def takeAllRunningTasks (s : SessionState) :
    SessionState × List (String × RunningTask) :=
  match s.activeTurn with
  | some turn => ({ s with activeTurn := none }, turn.tasks)
  | none => (s, [])

/-- `Session::abort_all_tasks` (tasks/mod.rs:96-100): drain the slot and
run the abort protocol on every drained task. -/
def abortAllTasks (s : SessionState) (reason : TurnAbortReason) :
    SessionState :=
  let taken := takeAllRunningTasks s
  taken.2.foldl (fun acc p => handleTaskAbort acc p.1 p.2 reason) taken.1

/-- `Session::register_new_active_task` (tasks/mod.rs:121-126): build a
fresh default `ActiveTurn`, add the one task, store it in the slot. -/
def registerNewActiveTask (s : SessionState) (subId : String)
    (task : RunningTask) : SessionState :=
  { s with activeTurn := some (ActiveTurn.addTask ⟨[]⟩ subId task) }

/-- `Session::spawn_task` (tasks/mod.rs:60-94), the session-state part:
first `abort_all_tasks(Replaced)`, then construct the `RunningTask` (its
handle freshly spawned, hence not finished) and register it.  The spawned
`run` future itself is a separate action of the step relation below. -/
def spawnTask (s : SessionState) (subId : String) (kind : TaskKind) :
    SessionState :=
  registerNewActiveTask (abortAllTasks s .replaced) subId ⟨false, kind⟩

/-- The `active_turn` part of `Session::on_task_finished`
(tasks/mod.rs:107-113): remove the task from the slot; if the slot is now
empty, clear it. -/
def removeTaskFromActive (s : SessionState) (subId : String) : SessionState :=
  match s.activeTurn with
  | some turn =>
      let removed := turn.removeTask subId
      if removed.2 then { s with activeTurn := none }
      else { s with activeTurn := some removed.1 }
  | none => s

/-- `Session::on_task_finished` (tasks/mod.rs:102-119): remove the task
from the slot, then emit `TaskComplete{last_agent_message}` tagged with
its `sub_id`. -/
def onTaskFinished (s : SessionState) (subId : String)
    (lastAgentMessage : Option String) : SessionState :=
  sendEvent (removeTaskFromActive s subId) ⟨subId, .taskComplete lastAgentMessage⟩

/-- The sub_ids currently registered in the `active_turn` slot. -/
def slotIds (s : SessionState) : List String :=
  match s.activeTurn with
  | some turn => turn.tasks.map Prod.fst
  | none => []

/-- The tasks currently registered in the `active_turn` slot. -/
def slotTasks (s : SessionState) : List (String × RunningTask) :=
  match s.activeTurn with
  | some turn => turn.tasks
  | none => []

/-- One session-level action, at the granularity of the functions of
`tasks/mod.rs`.  `spawn` requires a fresh submission id (submission ids
are unique per session).  `finish` models the tail of the future spawned
by `spawn_task` — `run` returning and the uniform `on_task_finished`
continuation; aborting a task cancels its handle, so the action is only
enabled while the task is still registered.  `emit` models any other
task-tagged event produced by the running task, enabled under the same
condition.  `interrupt` models `abort_all_tasks` driven by
Interrupt/Shutdown/stream failure. -/
inductive Step : SessionState → SessionState → Prop where
  | spawn (s : SessionState) (subId : String) (kind : TaskKind)
      (hfresh : subId ∉ s.spawned) :
      Step s { spawnTask s subId kind with spawned := subId :: s.spawned }
  | finish (s : SessionState) (subId : String) (msg : Option String)
      (hrun : subId ∈ slotIds s) :
      Step s (onTaskFinished s subId msg)
  | emit (s : SessionState) (subId : String)
      (hrun : subId ∈ slotIds s) :
      Step s (sendEvent s ⟨subId, .taskProgress⟩)
  | interrupt (s : SessionState) (reason : TurnAbortReason) :
      Step s (abortAllTasks s reason)

/-- The initial session state: empty slot, empty bus. -/
def initialSession : SessionState := ⟨none, [], []⟩

/-- The session states reachable from the initial state by session-level
actions. -/
inductive Reach : SessionState → Prop where
  | init : Reach initialSession
  | step {s t : SessionState} : Reach s → Step s t → Reach t

/-- The two lifecycle-terminal event payloads of a submission:
`TaskComplete` and `TurnAborted`. -/
def isTerminal : EventMsg → Bool
  | .taskComplete _ => true
  | .turnAborted _ => true
  | .exitedReviewMode => false
  | .taskProgress => false

/-- Whether the trace already holds a terminal event for `sub_id` `x`. -/
def hasTerminalFor (x : String) (evs : List Event) : Bool :=
  evs.any (fun e => e.id == x && isTerminal e.msg)

/-- The per-`sub_id` ordering property of spec §4.2.1: once a trace holds
a `TaskComplete` or `TurnAborted` for a `sub_id`, no later event bears
that `sub_id`. -/
def okTrace : List Event → Prop
  | [] => True
  | e :: rest =>
      (isTerminal e.msg = true → ∀ e2 ∈ rest, e2.id ≠ e.id) ∧ okTrace rest

theorem hasTerminalFor_append (x : String) (l1 l2 : List Event) :
    hasTerminalFor x (l1 ++ l2)
      = (hasTerminalFor x l1 || hasTerminalFor x l2) := by
  simp [hasTerminalFor, List.any_append]

theorem okTrace_append_singleton (evs : List Event) (e : Event)
    (h : okTrace evs) (hterm : hasTerminalFor e.id evs = false) :
    okTrace (evs ++ [e]) := by
  induction evs with
  | nil => exact ⟨fun _ e2 he2 => absurd he2 (List.not_mem_nil e2), trivial⟩
  | cons a rest ih =>
      obtain ⟨ha, hrest⟩ := h
      simp only [hasTerminalFor, List.any_cons, Bool.or_eq_false_iff,
        Bool.and_eq_false_iff, beq_eq_false_iff_ne] at hterm
      refine ⟨?_, ih hrest ?_⟩
      · intro hta e2 he2
        rcases List.mem_append.mp he2 with h1 | h1
        · exact ha hta e2 h1
        · have he : e2 = e := by simpa using h1
          subst he
          intro hcontra
          rcases hterm.1 with hne | hfalse
          · exact hne hcontra.symm
          · rw [hta] at hfalse
            simp at hfalse
      · simp only [hasTerminalFor, List.any_eq_false]
        intro e2 he2
        have := hterm.2
        simp only [hasTerminalFor, List.any_eq_false] at this
        exact this e2 he2

/-- If no event of the trace bears id `x`, no terminal event does. -/
theorem hasTerminalFor_eq_false_of_ne (x : String) (evs : List Event)
    (h : ∀ e ∈ evs, e.id ≠ x) : hasTerminalFor x evs = false := by
  simp only [hasTerminalFor, List.any_eq_false]
  intro e he
  simp [h e he]

/-- Effect of the abort protocol on the session state, in one equation. -/
theorem handleTaskAbort_eq (s : SessionState) (subId : String)
    (task : RunningTask) (reason : TurnAbortReason) :
    handleTaskAbort s subId task reason =
      if task.finished then s
      else { s with events := s.events ++
              (abortHookEvents task.kind subId ++ [⟨subId, .turnAborted reason⟩]) } := by
  cases hf : task.finished <;>
    simp [handleTaskAbort, hf, sendEvent, sendEvents]

/-- Every event of the abort protocol bears the aborted sub_id. -/
theorem abortProtocol_ids (kind : TaskKind) (subId : String)
    (reason : TurnAbortReason) :
    ∀ e ∈ abortHookEvents kind subId ++ [(⟨subId, .turnAborted reason⟩ : Event)],
      e.id = subId := by
  intro e he
  cases kind with
  | regular => simp [abortHookEvents] at he; simp [he]
  | compact => simp [abortHookEvents] at he; simp [he]
  | review =>
      simp [abortHookEvents] at he
      rcases he with rfl | rfl <;> rfl

/-- Appending the abort protocol of an id with no prior terminal event
preserves the ordering property. -/
theorem okTrace_abortProtocol (evs : List Event) (kind : TaskKind)
    (subId : String) (reason : TurnAbortReason) (h : okTrace evs)
    (hterm : hasTerminalFor subId evs = false) :
    okTrace (evs ++ (abortHookEvents kind subId ++ [⟨subId, .turnAborted reason⟩])) := by
  cases kind
  case regular =>
    simpa [abortHookEvents] using
      okTrace_append_singleton evs ⟨subId, .turnAborted reason⟩ h hterm
  case compact =>
    simpa [abortHookEvents] using
      okTrace_append_singleton evs ⟨subId, .turnAborted reason⟩ h hterm
  case review =>
    have h1 : okTrace (evs ++ [(⟨subId, .exitedReviewMode⟩ : Event)]) :=
      okTrace_append_singleton evs ⟨subId, .exitedReviewMode⟩ h hterm
    have h2 : hasTerminalFor subId (evs ++ [(⟨subId, .exitedReviewMode⟩ : Event)]) = false := by
      rw [hasTerminalFor_append, hterm]
      simp [hasTerminalFor, isTerminal]
    have h3 := okTrace_append_singleton _ ⟨subId, .turnAborted reason⟩ h1 h2
    simpa [abortHookEvents, List.append_assoc] using h3

/-- The slot after `on_task_finished` removes the finished task: exactly
the previous tasks whose sub_id differs. -/
theorem slotTasks_removeTaskFromActive (s : SessionState) (subId : String) :
    slotTasks (removeTaskFromActive s subId)
      = (slotTasks s).filter (fun p => p.1 ≠ subId) := by
  cases hat : s.activeTurn with
  | none => simp [removeTaskFromActive, slotTasks, hat]
  | some turn =>
      simp only [removeTaskFromActive, ActiveTurn.removeTask, hat]
      cases hemp : (turn.tasks.filter (fun p => p.1 ≠ subId)).isEmpty with
      | true =>
          have hnil := List.isEmpty_iff.mp hemp
          simp only [slotTasks, hat, if_pos]
          rw [hnil]
      | false =>
          simp [slotTasks, hat]

/-- `slotIds` is the first projection of `slotTasks`. -/
theorem slotIds_eq_map (s : SessionState) :
    slotIds s = (slotTasks s).map Prod.fst := by
  cases hat : s.activeTurn <;> simp [slotIds, slotTasks, hat]

/-- The state invariant maintained by every session-level action: the slot
holds at most one task, every event id and every slot id was spawned, no
task still in the slot has a terminal event on the bus, and the bus
satisfies the per-sub_id ordering property. -/
def Inv (s : SessionState) : Prop :=
  (slotTasks s).length ≤ 1 ∧
  (∀ e ∈ s.events, e.id ∈ s.spawned) ∧
  (∀ x ∈ slotIds s, x ∈ s.spawned) ∧
  (∀ x ∈ slotIds s, hasTerminalFor x s.events = false) ∧
  okTrace s.events

/-- Effect of `abort_all_tasks` under the single-slot bound: the slot is
cleared, the ghost spawn list is untouched, and the bus grows by abort
protocols of the slot's sub_ids, preserving the ordering property. -/
theorem abortAllTasks_spec (s : SessionState) (reason : TurnAbortReason)
    (hlen : (slotTasks s).length ≤ 1) :
    (abortAllTasks s reason).activeTurn = none ∧
    (abortAllTasks s reason).spawned = s.spawned ∧
    ∃ es : List Event,
      (abortAllTasks s reason).events = s.events ++ es ∧
      (∀ e ∈ es, e.id ∈ slotIds s) ∧
      (okTrace s.events →
        (∀ x ∈ slotIds s, hasTerminalFor x s.events = false) →
        okTrace (s.events ++ es)) := by
  cases hat : s.activeTurn with
  | none =>
      refine ⟨by simp [abortAllTasks, takeAllRunningTasks, hat], by simp [abortAllTasks, takeAllRunningTasks, hat], [], by simp [abortAllTasks, takeAllRunningTasks, hat], ?_, ?_⟩
      · intro e he; exact absurd he (List.not_mem_nil e)
      · intro h _; simpa using h
  | some turn =>
      cases hts : turn.tasks with
      | nil =>
          refine ⟨by simp [abortAllTasks, takeAllRunningTasks, hat, hts], by simp [abortAllTasks, takeAllRunningTasks, hat, hts], [], by simp [abortAllTasks, takeAllRunningTasks, hat, hts], ?_, ?_⟩
          · intro e he; exact absurd he (List.not_mem_nil e)
          · intro h _; simpa using h
      | cons p rest =>
          have hrest : rest = [] := by
            have hl := hlen
            simp only [slotTasks, hat, hts] at hl
            have : rest.length = 0 := by simpa using hl
            exact List.length_eq_zero.mp this
          subst hrest
          have habort : abortAllTasks s reason
              = handleTaskAbort { s with activeTurn := none } p.1 p.2 reason := by
            simp [abortAllTasks, takeAllRunningTasks, hat, hts]
          rw [habort, handleTaskAbort_eq]
          cases hf : p.2.finished with
          | true =>
              refine ⟨by simp, by simp, [], by simp, ?_, ?_⟩
              · intro e he; exact absurd he (List.not_mem_nil e)
              · intro h _; simpa using h
          | false =>
              refine ⟨by simp, by simp,
                abortHookEvents p.2.kind p.1 ++ [⟨p.1, .turnAborted reason⟩],
                by simp, ?_, ?_⟩
              · intro e he
                have := abortProtocol_ids p.2.kind p.1 reason e he
                rw [this]
                simp [slotIds, hat, hts]
              · intro hok hnt
                exact okTrace_abortProtocol s.events p.2.kind p.1 reason hok
                  (hnt p.1 (by simp [slotIds, hat, hts]))
/-- Projections of `removeTaskFromActive`: only the slot changes. -/
theorem removeTaskFromActive_events (s : SessionState) (subId : String) :
    (removeTaskFromActive s subId).events = s.events := by
  unfold removeTaskFromActive
  cases s.activeTurn with
  | none => rfl
  | some turn =>
      dsimp only
      split <;> rfl

theorem removeTaskFromActive_spawned (s : SessionState) (subId : String) :
    (removeTaskFromActive s subId).spawned = s.spawned := by
  unfold removeTaskFromActive
  cases s.activeTurn with
  | none => rfl
  | some turn =>
      dsimp only
      split <;> rfl

/-- Projections of `spawn_task`: the slot becomes the singleton of the new
task; events and ghost spawn list come from the abort phase. -/
theorem spawnTask_activeTurn (s : SessionState) (subId : String)
    (kind : TaskKind) :
    (spawnTask s subId kind).activeTurn
      = some ⟨[(subId, ⟨false, kind⟩)]⟩ := by
  simp [spawnTask, registerNewActiveTask, ActiveTurn.addTask]

theorem spawnTask_events (s : SessionState) (subId : String)
    (kind : TaskKind) :
    (spawnTask s subId kind).events = (abortAllTasks s .replaced).events := by
  simp [spawnTask, registerNewActiveTask]

theorem onTaskFinished_events (s : SessionState) (subId : String)
    (msg : Option String) :
    (onTaskFinished s subId msg).events
      = s.events ++ [⟨subId, .taskComplete msg⟩] := by
  simp [onTaskFinished, sendEvent, removeTaskFromActive_events]

theorem onTaskFinished_spawned (s : SessionState) (subId : String)
    (msg : Option String) :
    (onTaskFinished s subId msg).spawned = s.spawned := by
  simp [onTaskFinished, sendEvent, removeTaskFromActive_spawned]

theorem slotTasks_onTaskFinished (s : SessionState) (subId : String)
    (msg : Option String) :
    slotTasks (onTaskFinished s subId msg)
      = (slotTasks s).filter (fun p => p.1 ≠ subId) := by
  have h := slotTasks_removeTaskFromActive s subId
  have : slotTasks (onTaskFinished s subId msg)
      = slotTasks (removeTaskFromActive s subId) := by
    simp [onTaskFinished, sendEvent, slotTasks]
  rw [this, h]

/-- Every reachable session state satisfies the invariant. -/
theorem reach_inv {s : SessionState} (h : Reach s) : Inv s := by
  induction h with
  | init =>
      refine ⟨?_, ?_, ?_, ?_, ?_⟩ <;>
        simp [initialSession, slotTasks, slotIds, okTrace]
  | @step s1 t1 hr hstep ih =>
      obtain ⟨hlen, hev, hslot, hnt, hok⟩ := ih
      cases hstep with
      | spawn subId kind hfresh =>
          obtain ⟨hat, hsp, es, hevents, hids, hoktr⟩ :=
            abortAllTasks_spec s1 .replaced hlen
          have hnew : ∀ e ∈ s1.events ++ es, e.id ≠ subId := by
            intro e he
            rcases List.mem_append.mp he with h1 | h1
            · intro hc; exact hfresh (hc ▸ hev e h1)
            · intro hc
              exact hfresh (hc ▸ hslot e.id (hids e h1))
          have hevents2 : ({ spawnTask s1 subId kind with
              spawned := subId :: s1.spawned } : SessionState).events
              = s1.events ++ es := by
            show (spawnTask s1 subId kind).events = s1.events ++ es
            rw [spawnTask_events, hevents]
          have hat2 : ({ spawnTask s1 subId kind with
              spawned := subId :: s1.spawned } : SessionState).activeTurn
              = some ⟨[(subId, ⟨false, kind⟩)]⟩ := by
            show (spawnTask s1 subId kind).activeTurn = _
            exact spawnTask_activeTurn s1 subId kind
          have hsp2 : ({ spawnTask s1 subId kind with
              spawned := subId :: s1.spawned } : SessionState).spawned
              = subId :: s1.spawned := rfl
          refine ⟨?_, ?_, ?_, ?_, ?_⟩
          · simp [slotTasks, spawnTask_activeTurn]
          · intro e he
            rw [hevents2] at he
            rw [hsp2]
            rcases List.mem_append.mp he with h1 | h1
            · exact List.mem_cons_of_mem _ (hev e h1)
            · exact List.mem_cons_of_mem _ (hslot e.id (hids e h1))
          · intro x hx
            simp [slotIds, spawnTask_activeTurn] at hx
            simp [hsp2]
            exact Or.inl hx
          · intro x hx
            simp [slotIds, spawnTask_activeTurn] at hx
            subst hx
            rw [hevents2]
            exact hasTerminalFor_eq_false_of_ne _ _ hnew
          · rw [hevents2]
            exact hoktr hok hnt
      | finish subId msg hrun =>
          refine ⟨?_, ?_, ?_, ?_, ?_⟩
          · rw [slotTasks_onTaskFinished]
            exact le_trans (List.length_filter_le _ _) hlen
          · intro e he
            rw [onTaskFinished_events] at he
            rw [onTaskFinished_spawned]
            rcases List.mem_append.mp he with h1 | h1
            · exact hev e h1
            · have he2 : e = ⟨subId, .taskComplete msg⟩ := by simpa using h1
              subst he2
              exact hslot subId hrun
          · intro x hx
            rw [slotIds_eq_map, slotTasks_onTaskFinished] at hx
            rw [onTaskFinished_spawned]
            obtain ⟨p, hp, hpx⟩ := List.mem_map.mp hx
            have hpmem := (List.mem_filter.mp hp).1
            refine hslot x ?_
            rw [slotIds_eq_map]
            exact hpx ▸ List.mem_map.mpr ⟨p, hpmem, rfl⟩
          · intro x hx
            rw [slotIds_eq_map, slotTasks_onTaskFinished] at hx
            obtain ⟨p, hp, hpx⟩ := List.mem_map.mp hx
            have hpfil := List.mem_filter.mp hp
            have hxne : x ≠ subId := by
              have h2 := hpfil.2
              simp at h2
              rw [← hpx]
              exact h2
            have hxold : hasTerminalFor x s1.events = false := by
              refine hnt x ?_
              rw [slotIds_eq_map]
              exact hpx ▸ List.mem_map.mpr ⟨p, hpfil.1, rfl⟩
            rw [onTaskFinished_events, hasTerminalFor_append, hxold]
            simp [hasTerminalFor, isTerminal]
            exact fun hc => absurd hc.symm hxne
          · rw [onTaskFinished_events]
            exact okTrace_append_singleton _ _ hok (hnt subId hrun)
      | emit subId hrun =>
          refine ⟨?_, ?_, ?_, ?_, ?_⟩
          · simpa [slotTasks, sendEvent] using hlen
          · intro e he
            simp only [sendEvent] at he
            rcases List.mem_append.mp he with h1 | h1
            · exact hev e h1
            · have he2 : e = ⟨subId, .taskProgress⟩ := by simpa using h1
              subst he2
              exact hslot subId hrun
          · intro x hx
            simp only [slotIds, sendEvent] at hx
            exact hslot x hx
          · intro x hx
            simp only [slotIds, sendEvent] at hx
            have hxold := hnt x hx
            simp only [sendEvent, hasTerminalFor_append, hxold]
            simp [hasTerminalFor, isTerminal]
          · simp only [sendEvent]
            exact okTrace_append_singleton _ _ hok (hnt subId hrun)
      | interrupt reason =>
          obtain ⟨hat, hsp, es, hevents, hids, hoktr⟩ :=
            abortAllTasks_spec s1 reason hlen
          refine ⟨?_, ?_, ?_, ?_, ?_⟩
          · simp [slotTasks, hat]
          · intro e he
            rw [hevents] at he
            rw [hsp]
            rcases List.mem_append.mp he with h1 | h1
            · exact hev e h1
            · exact hslot e.id (hids e h1)
          · intro x hx
            simp [slotIds, hat] at hx
          · intro x hx
            simp [slotIds, hat] at hx
          · rw [hevents]
            exact hoktr hok hnt


/-- A concrete session state whose slot holds one running review task. -/
def occupiedSession : SessionState :=
  ⟨some ⟨[("sub-1", ⟨false, .review⟩)]⟩, [], ["sub-1"]⟩

/-- C1: at most one `RunningTask` is registered in the session's
`active_turn` slot in any reachable state; `spawn_task` stores the new
task as the sole occupant of a fresh slot, and when the slot was occupied
the previous task first goes through the abort protocol
(`handle_task_abort`) with reason `Replaced`, so an occupied slot is never
overwritten without the previous task having been aborted. -/
theorem C1_single_task_spawn_aborts_previous :
    (∀ s : SessionState, Reach s → (slotTasks s).length ≤ 1) ∧
    (∀ (s : SessionState) (subId : String) (kind : TaskKind),
      (spawnTask s subId kind).activeTurn
        = some ⟨[(subId, ⟨false, kind⟩)]⟩) ∧
    (∀ (s : SessionState) (subId oldId : String) (kind : TaskKind)
        (oldTask : RunningTask),
      s.activeTurn = some ⟨[(oldId, oldTask)]⟩ →
      (spawnTask s subId kind).events
        = (handleTaskAbort { s with activeTurn := none } oldId oldTask
            .replaced).events) := by
  refine ⟨?_, ?_, ?_⟩
  · intro s hs
    exact (reach_inv hs).1
  · intro s subId kind
    exact spawnTask_activeTurn s subId kind
  · intro s subId oldId kind oldTask hat
    rw [spawnTask_events]
    simp [abortAllTasks, takeAllRunningTasks, hat]

/-- Witness for C1 at concrete inputs: the initial state, a spawn into an
empty slot, and a spawn replacing the occupant of `occupiedSession`. -/
theorem C1_single_task_spawn_aborts_previous_witness :
    (slotTasks initialSession).length ≤ 1 ∧
    (spawnTask initialSession "sub-1" .regular).activeTurn
      = some ⟨[("sub-1", ⟨false, .regular⟩)]⟩ ∧
    (spawnTask occupiedSession "sub-2" .regular).events
      = (handleTaskAbort { occupiedSession with activeTurn := none }
          "sub-1" ⟨false, .review⟩ .replaced).events :=
  ⟨C1_single_task_spawn_aborts_previous.1 initialSession Reach.init,
   C1_single_task_spawn_aborts_previous.2.1 initialSession "sub-1" .regular,
   C1_single_task_spawn_aborts_previous.2.2 occupiedSession "sub-2" "sub-1"
     .regular ⟨false, .review⟩ rfl⟩

/-- C2: when a task's `run` future returns, `on_task_finished` removes the
task from the `active_turn` slot and appends exactly one
`TaskComplete{last_agent_message}` event tagged with its `sub_id`; and in
every reachable trace, once a `TaskComplete` or `TurnAborted` is emitted
for a `sub_id`, no later event bears that `sub_id`. -/
theorem C2_task_complete_and_no_events_after_terminal :
    (∀ (s : SessionState) (subId : String) (msg : Option String),
      (onTaskFinished s subId msg).events
        = s.events ++ [⟨subId, .taskComplete msg⟩] ∧
      subId ∉ slotIds (onTaskFinished s subId msg)) ∧
    (∀ s : SessionState, Reach s → okTrace s.events) := by
  refine ⟨?_, ?_⟩
  · intro s subId msg
    refine ⟨onTaskFinished_events s subId msg, ?_⟩
    rw [slotIds_eq_map, slotTasks_onTaskFinished]
    intro hmem
    obtain ⟨p, hp, hpx⟩ := List.mem_map.mp hmem
    have h2 := (List.mem_filter.mp hp).2
    simp at h2
    exact h2 hpx
  · intro s hs
    exact (reach_inv hs).2.2.2.2

/-- Witness for C2 at concrete inputs: finishing the task of
`occupiedSession`, and the trace of the initial state. -/
theorem C2_task_complete_and_no_events_after_terminal_witness :
    ((onTaskFinished occupiedSession "sub-1" (some "done")).events
        = occupiedSession.events ++ [⟨"sub-1", .taskComplete (some "done")⟩] ∧
      "sub-1" ∉ slotIds (onTaskFinished occupiedSession "sub-1" (some "done"))) ∧
    okTrace initialSession.events :=
  ⟨C2_task_complete_and_no_events_after_terminal.1 occupiedSession "sub-1"
      (some "done"),
   C2_task_complete_and_no_events_after_terminal.2 initialSession Reach.init⟩

/-- C3: the abort protocol on an already-finished task does nothing (in
particular emits no `TurnAborted`); on a still-running task it runs the
task's `abort()` hook and only then emits `TurnAborted{reason}` tagged
with the aborted `sub_id`; for a Review task the closing
`exit_review_mode` event therefore precedes its `TurnAborted`. -/
theorem C3_abort_protocol_hook_before_turn_aborted :
    (∀ (s : SessionState) (subId : String) (task : RunningTask)
        (reason : TurnAbortReason),
      task.finished = true → handleTaskAbort s subId task reason = s) ∧
    (∀ (s : SessionState) (subId : String) (task : RunningTask)
        (reason : TurnAbortReason),
      task.finished = false →
      (handleTaskAbort s subId task reason).events
        = s.events ++ abortHookEvents task.kind subId
            ++ [⟨subId, .turnAborted reason⟩]) ∧
    (∀ (s : SessionState) (subId : String) (reason : TurnAbortReason),
      (handleTaskAbort s subId ⟨false, .review⟩ reason).events
        = s.events ++ [⟨subId, .exitedReviewMode⟩,
            ⟨subId, .turnAborted reason⟩]) := by
  refine ⟨?_, ?_, ?_⟩
  · intro s subId task reason hf
    rw [handleTaskAbort_eq, if_pos hf]
  · intro s subId task reason hf
    rw [handleTaskAbort_eq, if_neg (by simp [hf])]
    simp
  · intro s subId reason
    rw [handleTaskAbort_eq]
    simp [abortHookEvents]

/-- Witness for C3 at concrete inputs: a finished regular task, a running
compact task, and a running review task. -/
theorem C3_abort_protocol_hook_before_turn_aborted_witness :
    handleTaskAbort initialSession "sub-1" ⟨true, .regular⟩ .userInterrupt
      = initialSession ∧
    (handleTaskAbort initialSession "sub-1" ⟨false, .compact⟩ .shutdown).events
      = initialSession.events ++ abortHookEvents .compact "sub-1"
          ++ [⟨"sub-1", .turnAborted .shutdown⟩] ∧
    (handleTaskAbort initialSession "sub-1" ⟨false, .review⟩ .replaced).events
      = initialSession.events ++ [⟨"sub-1", .exitedReviewMode⟩,
          ⟨"sub-1", .turnAborted .replaced⟩] :=
  ⟨C3_abort_protocol_hook_before_turn_aborted.1 initialSession "sub-1"
      ⟨true, .regular⟩ .userInterrupt rfl,
   C3_abort_protocol_hook_before_turn_aborted.2.1 initialSession "sub-1"
      ⟨false, .compact⟩ .shutdown rfl,
   C3_abort_protocol_hook_before_turn_aborted.2.2 initialSession "sub-1"
      .replaced⟩

/-! ## MCP client utilities (src/codex-rs/rmcp-client/src/utils.rs) -/

/-- `serde_json::Value`, with numbers restricted to the integers (no claim
depends on non-integral JSON numbers). -/
inductive Json where
  | null
  | bool (b : Bool)
  | num (n : Int)
  | str (s : String)
  | arr (elems : List Json)
  | obj (fields : List (String × Json))

/-- `serde_json::Map::get`: first binding of the key. -/
def lookupField : List (String × Json) → String → Option Json
  | [], _ => none
  | (k, v) :: rest, key => if k = key then some v else lookupField rest key

/-- `serde_json::Map::insert`: replace the value bound to an existing key,
else append the binding. -/
def insertField : List (String × Json) → String → Json → List (String × Json)
  | [], key, v => [(key, v)]
  | (k, w) :: rest, key, v =>
      if k = key then (k, v) :: rest else (k, w) :: insertField rest key v

/-- `obj.get("content").is_none() ||
obj.get("content").is_some_and(Value::is_null)` (utils.rs:35-36). -/
def contentMissingOrNull (fields : List (String × Json)) : Bool :=
  match lookupField fields "content" with
  | none => true
  | some .null => true
  | some _ => false

/-- `convert_call_tool_result` (utils.rs:32-41) at the `serde_json::Value`
level: a serialized `CallToolResult` is an object; when its `content`
field is absent or null it is replaced by the empty array, otherwise the
value passes through unchanged.  (The surrounding
serialize/deserialize round trip through identically-shaped types is the
identity on the value.) -/
def convertCallToolResult (value : Json) : Json :=
  match value with
  | .obj fields =>
      if contentMissingOrNull fields then
        .obj (insertField fields "content" (.arr []))
      else .obj fields
  | v => v

/-- Field access on a JSON value: `get` on objects, nothing otherwise. -/
def Json.getField (j : Json) (key : String) : Option Json :=
  match j with
  | .obj fields => lookupField fields key
  | _ => none

theorem lookupField_insertField_self (fs : List (String × Json))
    (key : String) (v : Json) :
    lookupField (insertField fs key v) key = some v := by
  induction fs with
  | nil => simp [insertField, lookupField]
  | cons p rest ih =>
      by_cases h : p.1 = key
      · simp [insertField, lookupField, h]
      · simp [insertField, lookupField, h, ih]

theorem lookupField_insertField_ne (fs : List (String × Json))
    (key key2 : String) (v : Json) (h : key2 ≠ key) :
    lookupField (insertField fs key v) key2 = lookupField fs key2 := by
  induction fs with
  | nil => simp [insertField, lookupField, Ne.symm h]
  | cons p rest ih =>
      by_cases h1 : p.1 = key
      · subst h1
        simp [insertField, lookupField, Ne.symm h]
      · by_cases h2 : p.1 = key2
        · simp [insertField, lookupField, h1, h2, h]
        · simp [insertField, lookupField, h1, h2, ih]

/-- C4: `convert_call_tool_result` always yields a result whose `content`
field is present and non-null; an absent or null `content` becomes the
empty array; a present non-null `content` leaves the result unchanged,
and `structured_content` and `is_error` are always preserved. -/
theorem C4_convert_call_tool_result_normalizes_content :
    (∀ fields : List (String × Json),
      ∃ c, (convertCallToolResult (.obj fields)).getField "content" = some c ∧
        c ≠ .null) ∧
    (∀ fields : List (String × Json), contentMissingOrNull fields = true →
      (convertCallToolResult (.obj fields)).getField "content"
        = some (.arr [])) ∧
    (∀ (fields : List (String × Json)) (c : Json),
      lookupField fields "content" = some c → c ≠ .null →
      convertCallToolResult (.obj fields) = .obj fields) ∧
    (∀ fields : List (String × Json),
      (convertCallToolResult (.obj fields)).getField "structured_content"
        = lookupField fields "structured_content") ∧
    (∀ fields : List (String × Json),
      (convertCallToolResult (.obj fields)).getField "is_error"
        = lookupField fields "is_error") := by
  have hmiss : ∀ fields : List (String × Json),
      contentMissingOrNull fields = false →
      ∃ c, lookupField fields "content" = some c ∧ c ≠ .null := by
    intro fields h
    unfold contentMissingOrNull at h
    cases hc : lookupField fields "content" with
    | none => rw [hc] at h; simp at h
    | some c =>
        rw [hc] at h
        refine ⟨c, rfl, ?_⟩
        intro hnull
        subst hnull
        simp at h
  refine ⟨?_, ?_, ?_, ?_, ?_⟩
  · intro fields
    cases hcm : contentMissingOrNull fields with
    | true =>
        refine ⟨.arr [], ?_, by intro h; exact Json.noConfusion h⟩
        simp [convertCallToolResult, hcm, Json.getField,
          lookupField_insertField_self]
    | false =>
        obtain ⟨c, hc, hcn⟩ := hmiss fields hcm
        exact ⟨c, by simp [convertCallToolResult, hcm, Json.getField, hc], hcn⟩
  · intro fields h
    simp [convertCallToolResult, h, Json.getField, lookupField_insertField_self]
  · intro fields c hc hcn
    have h : contentMissingOrNull fields = false := by
      unfold contentMissingOrNull
      rw [hc]
      cases c with
      | null => exact absurd rfl hcn
      | bool b => rfl
      | num n => rfl
      | str s => rfl
      | arr elems => rfl
      | obj fs => rfl
    simp [convertCallToolResult, h]
  · intro fields
    cases hcm : contentMissingOrNull fields with
    | true =>
        simp only [convertCallToolResult, hcm, if_pos, Json.getField]
        exact lookupField_insertField_ne fields "content" "structured_content"
          (.arr []) (by decide)
    | false => simp [convertCallToolResult, hcm, Json.getField]
  · intro fields
    cases hcm : contentMissingOrNull fields with
    | true =>
        simp only [convertCallToolResult, hcm, if_pos, Json.getField]
        exact lookupField_insertField_ne fields "content" "is_error"
          (.arr []) (by decide)
    | false => simp [convertCallToolResult, hcm, Json.getField]

/-- Witness for C4 at a concrete tool result with `content: null`,
`structured_content` and `is_error` present (the shape of the
`convert_call_tool_result_defaults_missing_content` unit test). -/
theorem C4_convert_call_tool_result_normalizes_content_witness :
    (∃ c, (convertCallToolResult (.obj [("content", .null),
        ("structured_content", .obj [("key", .str "value")]),
        ("is_error", .bool true)])).getField "content" = some c ∧
        c ≠ .null) ∧
    convertCallToolResult (.obj [("content", .arr [.str "hello"])])
      = .obj [("content", .arr [.str "hello"])] :=
  ⟨C4_convert_call_tool_result_normalizes_content.1 [("content", .null),
      ("structured_content", .obj [("key", .str "value")]),
      ("is_error", .bool true)],
   C4_convert_call_tool_result_normalizes_content.2.2.1
      [("content", .arr [.str "hello"])] (.arr [.str "hello"]) rfl
      (fun h => Json.noConfusion h)⟩

/-- `DEFAULT_ENV_VARS` (utils.rs:82-94), the unix list. -/
def DEFAULT_ENV_VARS : List String :=
  ["HOME", "LOGNAME", "PATH", "SHELL", "USER", "__CF_USER_TEXT_ENCODING",
   "LANG", "LC_ALL", "TERM", "TMPDIR", "TZ"]

/-- `HashMap::get` on an association list with unique keys. -/
def envLookup : List (String × String) → String → Option String
  | [], _ => none
  | (k1, v1) :: rest, k => if k1 = k then some v1 else envLookup rest k

/-- `HashMap::insert`: replace the value of an existing key, else append
the binding. -/
def envInsert : List (String × String) → String → String → List (String × String)
  | [], k, v => [(k, v)]
  | (k1, v1) :: rest, k, v =>
      if k1 = k then (k1, v) :: rest else (k1, v1) :: envInsert rest k v

/-- `create_env_for_mcp_server` (utils.rs:71-79): collect into a `HashMap`
the parent-environment bindings of `DEFAULT_ENV_VARS`, chained with the
entries of the optional extra env map (`collect` lets later entries of the
iterator win). The parent process environment `std::env::var` is the
function argument `parentEnv`. -/
def createEnvForMcpServer (parentEnv : String → Option String)
    (extraEnv : Option (List (String × String))) : List (String × String) :=
  ((DEFAULT_ENV_VARS.filterMap
      (fun v => (parentEnv v).map (fun value => (v, value))))
    ++ extraEnv.getD []).foldl (fun m p => envInsert m p.1 p.2) []

theorem envLookup_envInsert (m : List (String × String)) (k v k2 : String) :
    envLookup (envInsert m k v) k2
      = if k = k2 then some v else envLookup m k2 := by
  induction m with
  | nil => simp [envInsert, envLookup]
  | cons p rest ih =>
      by_cases h1 : p.1 = k
      · subst h1
        by_cases h2 : p.1 = k2 <;> simp [envInsert, envLookup, h2]
      · by_cases h2 : p.1 = k2
        · subst h2
          simp [envInsert, envLookup, h1, Ne.symm h1]
        · simp [envInsert, envLookup, h1, h2, ih]

theorem envLookup_append (l1 l2 : List (String × String)) (k : String) :
    envLookup (l1 ++ l2) k
      = match envLookup l1 k with
        | some v => some v
        | none => envLookup l2 k := by
  induction l1 with
  | nil => simp [envLookup]
  | cons p rest ih =>
      by_cases h : p.1 = k <;> simp [envLookup, h, ih]

theorem envLookup_foldl_envInsert (ps m : List (String × String))
    (k : String) :
    envLookup (ps.foldl (fun m p => envInsert m p.1 p.2) m) k
      = match envLookup ps.reverse k with
        | some v => some v
        | none => envLookup m k := by
  induction ps generalizing m with
  | nil => simp [envLookup]
  | cons p rest ih =>
      rw [List.foldl_cons, ih, List.reverse_cons, envLookup_append]
      cases h1 : envLookup rest.reverse k with
      | some v => rfl
      | none =>
          by_cases h2 : p.1 = k <;>
            simp [envLookup, envLookup_envInsert, h2]

theorem envLookup_eq_none_iff (l : List (String × String)) (k : String) :
    envLookup l k = none ↔ k ∉ l.map Prod.fst := by
  induction l with
  | nil => simp [envLookup]
  | cons p rest ih =>
      by_cases h : p.1 = k
      · simp [envLookup, h]
      · simp [envLookup, h, ih, Ne.symm h]

theorem envLookup_reverse (l : List (String × String)) (k : String)
    (hnd : (l.map Prod.fst).Nodup) :
    envLookup l.reverse k = envLookup l k := by
  induction l with
  | nil => rfl
  | cons p rest ih =>
      simp only [List.map_cons, List.nodup_cons] at hnd
      rw [List.reverse_cons, envLookup_append, ih hnd.2]
      by_cases h : p.1 = k
      · subst h
        have hnone : envLookup rest p.1 = none :=
          (envLookup_eq_none_iff rest p.1).mpr hnd.1
        rw [hnone]
        simp [envLookup]
      · cases h1 : envLookup rest k with
        | some v => simp [envLookup, h, h1]
        | none => simp [envLookup, h, h1]

theorem envLookup_defaults (parentEnv : String → Option String)
    (l : List String) (k : String) :
    envLookup (l.filterMap
        (fun v => (parentEnv v).map (fun value => (v, value)))) k
      = if k ∈ l then parentEnv k else none := by
  induction l with
  | nil => simp [envLookup]
  | cons v rest ih =>
      cases hv : parentEnv v with
      | none =>
          rw [List.filterMap_cons, hv]
          simp only [Option.map_none']
          rw [ih]
          by_cases h : k = v
          · subst h
            rw [hv]
            by_cases h2 : k ∈ rest <;> simp [h2, hv]
          · simp [h]
      | some val =>
          rw [List.filterMap_cons, hv]
          simp only [Option.map_some']
          by_cases h : v = k
          · subst h
            simp [envLookup, hv]
          · simp [envLookup, h, ih, Ne.symm h]

theorem defaults_keys_sublist (f : String → Option String) (l : List String) :
    ((l.filterMap (fun v => (f v).map (fun value => (v, value)))).map
      Prod.fst).Sublist l := by
  induction l with
  | nil => simp
  | cons v rest ih =>
      rw [List.filterMap_cons]
      cases hv : f v with
      | none =>
          simp only [Option.map_none']
          exact ih.cons v
      | some val =>
          simp only [Option.map_some', List.map_cons]
          exact ih.cons₂ v

theorem envLookup_foldl_envInsert_nil (ps : List (String × String))
    (k : String) :
    envLookup (ps.foldl (fun m p => envInsert m p.1 p.2) []) k
      = envLookup ps.reverse k := by
  rw [envLookup_foldl_envInsert]
  cases h : envLookup ps.reverse k <;> simp [envLookup]

/-- C6: `create_env_for_mcp_server` returns exactly the map binding each
`DEFAULT_ENV_VARS` name set in the parent environment to its parent value,
overlaid with the extra env entries (an extra entry wins on collision);
names outside `DEFAULT_ENV_VARS` appear only via the extra map. -/
theorem C6_create_env_default_vars_overlaid_with_extra :
    (∀ (parentEnv : String → Option String)
        (extra : List (String × String)) (name : String),
      (extra.map Prod.fst).Nodup →
      envLookup (createEnvForMcpServer parentEnv (some extra)) name
        = match envLookup extra name with
          | some v => some v
          | none =>
              if name ∈ DEFAULT_ENV_VARS then parentEnv name else none) ∧
    (∀ (parentEnv : String → Option String) (name : String),
      envLookup (createEnvForMcpServer parentEnv none) name
        = if name ∈ DEFAULT_ENV_VARS then parentEnv name else none) := by
  have hdefnd : ∀ parentEnv : String → Option String,
      ((DEFAULT_ENV_VARS.filterMap
        (fun v => (parentEnv v).map (fun value => (v, value)))).map
          Prod.fst).Nodup :=
    fun parentEnv =>
      (defaults_keys_sublist parentEnv DEFAULT_ENV_VARS).nodup (by decide)
  refine ⟨?_, ?_⟩
  · intro parentEnv extra name hnd
    unfold createEnvForMcpServer
    rw [envLookup_foldl_envInsert_nil]
    simp only [Option.getD]
    rw [List.reverse_append, envLookup_append, envLookup_reverse _ _ hnd]
    cases hx : envLookup extra name with
    | some v => rfl
    | none =>
        simp only
        rw [envLookup_reverse _ _ (hdefnd parentEnv), envLookup_defaults]
  · intro parentEnv name
    unfold createEnvForMcpServer
    rw [envLookup_foldl_envInsert_nil]
    simp only [Option.getD, List.append_nil]
    rw [envLookup_reverse _ _ (hdefnd parentEnv), envLookup_defaults]

/-- Witness for C6 at a concrete parent env and extra map: the TZ override
of the `create_env_honors_overrides` unit test. -/
theorem C6_create_env_default_vars_overlaid_with_extra_witness :
    (envLookup (createEnvForMcpServer
        (fun v => if v = "TZ" then some "UTC" else none)
        (some [("TZ", "custom")])) "TZ"
      = match envLookup [("TZ", "custom")] "TZ" with
        | some v => some v
        | none =>
            if "TZ" ∈ DEFAULT_ENV_VARS then
              (fun v => if v = "TZ" then some "UTC" else none) "TZ"
            else none) ∧
    (envLookup (createEnvForMcpServer
        (fun v => if v = "TZ" then some "UTC" else none) none) "HOME"
      = if "HOME" ∈ DEFAULT_ENV_VARS then
          (fun v => if v = "TZ" then some "UTC" else none) "HOME"
        else none) :=
  ⟨C6_create_env_default_vars_overlaid_with_extra.1
      (fun v => if v = "TZ" then some "UTC" else none) [("TZ", "custom")]
      "TZ" (by decide),
   C6_create_env_default_vars_overlaid_with_extra.2
      (fun v => if v = "TZ" then some "UTC" else none) "HOME"⟩

/-- `Duration` debug rendering (`{duration:?}`), abstracted to the
numeric value. -/
def durationRepr (d : Nat) : String := toString d

/-- `run_with_timeout` (utils.rs:14-30).  The awaited future is modelled
by its resolution time `resolveAfter` and outcome `out`;
`tokio::time::timeout(duration, fut)` delivers the outcome exactly when
the future resolves within the bound, else the elapse error, which
`with_context` wraps into the "timed out awaiting {label} ..." message;
service errors are wrapped with "{label} failed: ...". -/
def runWithTimeout {T : Type} (timeout : Option Nat) (resolveAfter : Nat)
    (out : Except String T) (label : String) : Except String T :=
  match timeout with
  | some d =>
      if resolveAfter ≤ d then
        match out with
        | .ok v => .ok v
        | .error e => .error (label ++ " failed: " ++ e)
      else
        .error ("timed out awaiting " ++ label ++ " after " ++ durationRepr d)
  | none =>
      match out with
      | .ok v => .ok v
      | .error e => .error (label ++ " failed: " ++ e)

/-- C7: with `Some(duration)` and a future that does not resolve within
the bound, `run_with_timeout` returns an error whose message contains
"timed out awaiting" followed by the operation label; with `None` the
future's own outcome is returned (service errors wrapped with the label);
a future resolving within the bound likewise has its outcome returned. -/
theorem C7_run_with_timeout_bounds_and_labels :
    (∀ (T : Type) (d r : Nat) (out : Except String T) (label : String),
      d < r →
      ∃ post, runWithTimeout (some d) r out label
        = .error ("timed out awaiting " ++ label ++ post)) ∧
    (∀ (T : Type) (r : Nat) (out : Except String T) (label : String),
      runWithTimeout none r out label
        = match out with
          | .ok v => .ok v
          | .error e => .error (label ++ " failed: " ++ e)) ∧
    (∀ (T : Type) (d r : Nat) (out : Except String T) (label : String),
      r ≤ d →
      runWithTimeout (some d) r out label
        = match out with
          | .ok v => .ok v
          | .error e => .error (label ++ " failed: " ++ e)) := by
  refine ⟨?_, ?_, ?_⟩
  · intro T d r out label h
    refine ⟨" after " ++ durationRepr d, ?_⟩
    simp only [runWithTimeout]
    rw [if_neg (by omega)]
    simp [String.append_assoc]
  · intro T r out label
    rfl
  · intro T d r out label h
    simp only [runWithTimeout]
    rw [if_pos h]

/-- Witness for C7 at concrete inputs: a 1-unit bound against a future
resolving at time 5, the unbounded case, and a future within the bound. -/
theorem C7_run_with_timeout_bounds_and_labels_witness :
    (∃ post, runWithTimeout (some 1) 5 (.ok (42 : Nat)) "tools/call"
        = .error ("timed out awaiting " ++ "tools/call" ++ post)) ∧
    runWithTimeout none 5 (.error "boom") "tools/call"
      = (.error ("tools/call" ++ " failed: " ++ "boom") : Except String Nat) ∧
    runWithTimeout (some 9) 5 (.ok (42 : Nat)) "tools/call" = .ok 42 :=
  ⟨C7_run_with_timeout_bounds_and_labels.1 Nat 1 5 (.ok 42) "tools/call"
      (by decide),
   C7_run_with_timeout_bounds_and_labels.2.1 Nat 5 (.error "boom")
      "tools/call",
   C7_run_with_timeout_bounds_and_labels.2.2 Nat 9 5 (.ok 42) "tools/call"
      (by decide)⟩

/-! ## MCP server configuration (src/codex-rs/core/src/config_types.rs) -/

/-- An `f64` as fed to `Duration::try_from_secs_f64`: NaN, the two
infinities, or a finite value.  Every finite `f64` is a rational number;
it is represented exactly as a numerator and a positive denominator. -/
inductive FloatVal where
  | nan
  | inf
  | negInf
  | finite (num : Int) (den : Nat)
  deriving DecidableEq

/-- `std::time::Duration`, in nanoseconds. -/
abbrev Duration := Nat

/-- `Duration::from_millis`. -/
def durationFromMillis (ms : Nat) : Duration := ms * 1000000

/-- `Duration::try_from_secs_f64`: fails on NaN, infinities, negative
values and values too big for a `Duration`; otherwise rounds to
nanoseconds (the tie-breaking of the rounding is abstracted to
round-half-up; no claim depends on it). -/
def tryFromSecsF64 : FloatVal → Except String Duration
  | .nan =>
      .error "can not convert float seconds to Duration: value is either too big or NaN"
  | .inf =>
      .error "can not convert float seconds to Duration: value is either too big or NaN"
  | .negInf =>
      .error "can not convert float seconds to Duration: value is negative"
  | .finite num den =>
      if num < 0 then
        .error "can not convert float seconds to Duration: value is negative"
      else if (2 ^ 64 : Int) * den ≤ num then
        .error "can not convert float seconds to Duration: value is either too big or NaN"
      else .ok (Int.toNat ((num * 1000000000 * 2 + den) / (2 * den)))

/-- `RawMcpServerConfig` (config_types.rs:39-56): the flat field set the
custom `Deserialize` impl reads, all optional.  `tool_timeout_sec` is
deserialized `with = "option_duration_secs"`, i.e. read as an optional
`f64` and converted; the unconverted float is carried here. -/
structure RawMcpServerConfig where
  command : Option String
  args : Option (List String)
  env : Option (List (String × String))
  url : Option String
  bearerToken : Option String
  startupTimeoutSec : Option FloatVal
  startupTimeoutMs : Option Nat
  toolTimeoutSec : Option FloatVal
  deriving DecidableEq

/-- `McpServerTransportConfig` (config_types.rs:122-142). -/
inductive McpServerTransportConfig where
  | stdio (command : String) (args : List String)
      (env : Option (List (String × String)))
  | streamableHttp (url : String) (bearerToken : Option String)
  deriving DecidableEq

/-- `McpServerConfig` (config_types.rs:16-32). -/
structure McpServerConfig where
  transport : McpServerTransportConfig
  startupTimeoutSec : Option Duration
  toolTimeoutSec : Option Duration
  deriving DecidableEq

/-- `option_duration_secs::deserialize` (config_types.rs:160-167). -/
def optionDurationSecs : Option FloatVal → Except String (Option Duration)
  | none => .ok none
  | some f => (tryFromSecsF64 f).map some

/-- The startup-timeout merge of `McpServerConfig::deserialize`
(config_types.rs:60-67): `startup_timeout_sec` wins when present (with
`try_from_secs_f64` conversion), else `startup_timeout_ms`, else none. -/
def startupTimeoutOf (raw : RawMcpServerConfig) :
    Except String (Option Duration) :=
  match raw.startupTimeoutSec, raw.startupTimeoutMs with
  | some sec, _ => (tryFromSecsF64 sec).map some
  | none, some ms => .ok (some (durationFromMillis ms))
  | none, none => .ok none

/-- The transport selection of `McpServerConfig::deserialize`
(config_types.rs:69-112): a `command` makes the config stdio after
`throw_if_set` rejects `url` and `bearer_token`; otherwise a `url` makes
it streamable-http after `throw_if_set` rejects `args` and `env` (the
`command` check of that arm is vacuous, the first arm having failed);
otherwise "invalid transport". -/
def transportOf (raw : RawMcpServerConfig) :
    Except String McpServerTransportConfig :=
  match raw.command with
  | some command =>
      match raw.url with
      | some _ => .error "url is not supported for stdio"
      | none =>
          match raw.bearerToken with
          | some _ => .error "bearer_token is not supported for stdio"
          | none => .ok (.stdio command (raw.args.getD []) raw.env)
  | none =>
      match raw.url with
      | some url =>
          match raw.args with
          | some _ => .error "args is not supported for streamable_http"
          | none =>
              match raw.env with
              | some _ => .error "env is not supported for streamable_http"
              | none => .ok (.streamableHttp url raw.bearerToken)
      | none => .error "invalid transport"

/-- `McpServerConfig::deserialize` (config_types.rs:34-120): convert the
raw `tool_timeout_sec` float (during the derived raw deserialization),
merge the startup timeout, then select the transport. -/
def mcpServerConfigDeserialize (raw : RawMcpServerConfig) :
    Except String McpServerConfig :=
  match optionDurationSecs raw.toolTimeoutSec with
  | .error e => .error e
  | .ok toolTimeout =>
      match startupTimeoutOf raw with
      | .error e => .error e
      | .ok startup =>
          match transportOf raw with
          | .error e => .error e
          | .ok transport => .ok ⟨transport, startup, toolTimeout⟩

/-- C5: deserializing an MCP server table fails when transports are mixed
(`command`+`url`; `bearer_token` with stdio; `env` or `args` with
streamable-http) and when neither `command` nor `url` is present; it
succeeds as Stdio on stdio-only fields and as StreamableHttp on http-only
fields. -/
theorem C5_transport_fields_mutually_exclusive :
    (∀ (raw : RawMcpServerConfig) (c u : String),
      raw.command = some c → raw.url = some u →
      ∃ e, mcpServerConfigDeserialize raw = .error e) ∧
    (∀ (raw : RawMcpServerConfig) (c b : String) (t st : Option Duration),
      raw.command = some c → raw.url = none → raw.bearerToken = some b →
      optionDurationSecs raw.toolTimeoutSec = .ok t →
      startupTimeoutOf raw = .ok st →
      mcpServerConfigDeserialize raw
        = .error "bearer_token is not supported for stdio") ∧
    (∀ (raw : RawMcpServerConfig) (u : String) (a : List String)
        (t st : Option Duration),
      raw.command = none → raw.url = some u → raw.args = some a →
      optionDurationSecs raw.toolTimeoutSec = .ok t →
      startupTimeoutOf raw = .ok st →
      mcpServerConfigDeserialize raw
        = .error "args is not supported for streamable_http") ∧
    (∀ (raw : RawMcpServerConfig) (u : String)
        (ev : List (String × String)) (t st : Option Duration),
      raw.command = none → raw.url = some u → raw.args = none →
      raw.env = some ev →
      optionDurationSecs raw.toolTimeoutSec = .ok t →
      startupTimeoutOf raw = .ok st →
      mcpServerConfigDeserialize raw
        = .error "env is not supported for streamable_http") ∧
    (∀ raw : RawMcpServerConfig,
      raw.command = none → raw.url = none →
      ∃ e, mcpServerConfigDeserialize raw = .error e) ∧
    (∀ (c : String) (args : Option (List String))
        (ev : Option (List (String × String))),
      mcpServerConfigDeserialize
          ⟨some c, args, ev, none, none, none, none, none⟩
        = .ok ⟨.stdio c (args.getD []) ev, none, none⟩) ∧
    (∀ (u : String) (b : Option String),
      mcpServerConfigDeserialize
          ⟨none, none, none, some u, b, none, none, none⟩
        = .ok ⟨.streamableHttp u b, none, none⟩) := by
  refine ⟨?_, ?_, ?_, ?_, ?_, ?_, ?_⟩
  · intro raw c u hc hu
    cases hT : optionDurationSecs raw.toolTimeoutSec with
    | error e => exact ⟨e, by simp [mcpServerConfigDeserialize, hT]⟩
    | ok t =>
        cases hS : startupTimeoutOf raw with
        | error e => exact ⟨e, by simp [mcpServerConfigDeserialize, hT, hS]⟩
        | ok st =>
            exact ⟨"url is not supported for stdio",
              by simp [mcpServerConfigDeserialize, hT, hS, transportOf, hc, hu]⟩
  · intro raw c b t st hc hu hb hT hS
    simp [mcpServerConfigDeserialize, hT, hS, transportOf, hc, hu, hb]
  · intro raw u a t st hc hu ha hT hS
    simp [mcpServerConfigDeserialize, hT, hS, transportOf, hc, hu, ha]
  · intro raw u ev t st hc hu ha he hT hS
    simp [mcpServerConfigDeserialize, hT, hS, transportOf, hc, hu, ha, he]
  · intro raw hc hu
    cases hT : optionDurationSecs raw.toolTimeoutSec with
    | error e => exact ⟨e, by simp [mcpServerConfigDeserialize, hT]⟩
    | ok t =>
        cases hS : startupTimeoutOf raw with
        | error e => exact ⟨e, by simp [mcpServerConfigDeserialize, hT, hS]⟩
        | ok st =>
            exact ⟨"invalid transport",
              by simp [mcpServerConfigDeserialize, hT, hS, transportOf, hc, hu]⟩
  · intro c args ev
    rfl
  · intro u b
    rfl

/-- Witness for C5 at concrete configuration tables: command+url,
command+bearer_token, url+args, url+env, neither, and the two pure
transports. -/
theorem C5_transport_fields_mutually_exclusive_witness :
    (∃ e, mcpServerConfigDeserialize
        ⟨some "echo", none, none, some "https://example.com", none,
          none, none, none⟩ = .error e) ∧
    mcpServerConfigDeserialize
        ⟨some "echo", none, none, none, some "secret", none, none, none⟩
      = .error "bearer_token is not supported for stdio" ∧
    mcpServerConfigDeserialize
        ⟨none, some ["x"], none, some "https://example.com", none,
          none, none, none⟩
      = .error "args is not supported for streamable_http" ∧
    mcpServerConfigDeserialize
        ⟨none, none, some [("FOO", "BAR")], some "https://example.com",
          none, none, none, none⟩
      = .error "env is not supported for streamable_http" ∧
    (∃ e, mcpServerConfigDeserialize
        ⟨none, none, none, none, none, none, none, none⟩ = .error e) ∧
    mcpServerConfigDeserialize
        ⟨some "echo", some ["hello", "world"], none, none, none,
          none, none, none⟩
      = .ok ⟨.stdio "echo" ["hello", "world"] none, none, none⟩ ∧
    mcpServerConfigDeserialize
        ⟨none, none, none, some "https://example.com/mcp", some "secret",
          none, none, none⟩
      = .ok ⟨.streamableHttp "https://example.com/mcp" (some "secret"),
          none, none⟩ :=
  ⟨C5_transport_fields_mutually_exclusive.1
      ⟨some "echo", none, none, some "https://example.com", none,
        none, none, none⟩ "echo" "https://example.com" rfl rfl,
   C5_transport_fields_mutually_exclusive.2.1
      ⟨some "echo", none, none, none, some "secret", none, none, none⟩
      "echo" "secret" none none rfl rfl rfl rfl rfl,
   C5_transport_fields_mutually_exclusive.2.2.1
      ⟨none, some ["x"], none, some "https://example.com", none,
        none, none, none⟩ "https://example.com" ["x"] none none
      rfl rfl rfl rfl rfl,
   C5_transport_fields_mutually_exclusive.2.2.2.1
      ⟨none, none, some [("FOO", "BAR")], some "https://example.com",
        none, none, none, none⟩ "https://example.com" [("FOO", "BAR")]
      none none rfl rfl rfl rfl rfl rfl,
   C5_transport_fields_mutually_exclusive.2.2.2.2.1
      ⟨none, none, none, none, none, none, none, none⟩ rfl rfl,
   C5_transport_fields_mutually_exclusive.2.2.2.2.2.1 "echo"
      (some ["hello", "world"]) none,
   C5_transport_fields_mutually_exclusive.2.2.2.2.2.2
      "https://example.com/mcp" (some "secret")⟩

/-- C9: `startup_timeout_sec` takes precedence over `startup_timeout_ms`
(the latter is ignored when both are present and consulted only when the
former is absent), and a NaN, infinite or negative `startup_timeout_sec`
fails deserialization; on success with `startup_timeout_sec` present the
config carries the sec-derived duration. -/
theorem C9_startup_timeout_sec_precedence_and_validation :
    (∀ (raw : RawMcpServerConfig) (sec : FloatVal),
      raw.startupTimeoutSec = some sec →
      startupTimeoutOf raw = (tryFromSecsF64 sec).map some) ∧
    (∀ (raw : RawMcpServerConfig) (ms : Nat),
      raw.startupTimeoutSec = none → raw.startupTimeoutMs = some ms →
      startupTimeoutOf raw = .ok (some (durationFromMillis ms))) ∧
    (∀ (raw : RawMcpServerConfig) (sec : FloatVal),
      raw.startupTimeoutSec = some sec →
      (sec = .nan ∨ sec = .inf ∨ sec = .negInf ∨
        ∃ (n : Int) (d : Nat), sec = .finite n d ∧ n < 0) →
      ∃ e, mcpServerConfigDeserialize raw = .error e) ∧
    (∀ (raw : RawMcpServerConfig) (sec : FloatVal) (cfg : McpServerConfig)
        (d : Duration),
      raw.startupTimeoutSec = some sec →
      mcpServerConfigDeserialize raw = .ok cfg →
      tryFromSecsF64 sec = .ok d →
      cfg.startupTimeoutSec = some d) := by
  have hsec : ∀ (raw : RawMcpServerConfig) (sec : FloatVal),
      raw.startupTimeoutSec = some sec →
      startupTimeoutOf raw = (tryFromSecsF64 sec).map some := by
    intro raw sec h
    unfold startupTimeoutOf
    rw [h]
  refine ⟨hsec, ?_, ?_, ?_⟩
  · intro raw ms h1 h2
    unfold startupTimeoutOf
    rw [h1, h2]
  · intro raw sec h hbad
    have herr : ∃ e0, tryFromSecsF64 sec = .error e0 := by
      rcases hbad with rfl | rfl | rfl | ⟨n, d, rfl, hq⟩
      · exact ⟨_, rfl⟩
      · exact ⟨_, rfl⟩
      · exact ⟨_, rfl⟩
      · exact ⟨"can not convert float seconds to Duration: value is negative",
          by simp [tryFromSecsF64, hq]⟩
    obtain ⟨e0, he0⟩ := herr
    cases hT : optionDurationSecs raw.toolTimeoutSec with
    | error e => exact ⟨e, by simp [mcpServerConfigDeserialize, hT]⟩
    | ok t =>
        have hS : startupTimeoutOf raw = .error e0 := by
          rw [hsec raw sec h, he0]
          rfl
        exact ⟨e0, by simp [mcpServerConfigDeserialize, hT, hS]⟩
  · intro raw sec cfg d h hdes hd
    have hS : startupTimeoutOf raw = .ok (some d) := by
      rw [hsec raw sec h, hd]
      rfl
    cases hT : optionDurationSecs raw.toolTimeoutSec with
    | error e => simp [mcpServerConfigDeserialize, hT] at hdes
    | ok t =>
        cases hTr : transportOf raw with
        | error e => simp [mcpServerConfigDeserialize, hT, hS, hTr] at hdes
        | ok tr =>
            simp [mcpServerConfigDeserialize, hT, hS, hTr] at hdes
            rw [← hdes]

/-- Witness for C9 at concrete inputs: both timeouts present (sec wins),
ms only, a negative sec failing deserialization, and a successful
1.5-second sec. -/
theorem C9_startup_timeout_sec_precedence_and_validation_witness :
    startupTimeoutOf
        ⟨some "echo", none, none, none, none, some (.finite 2 1),
          some 700, none⟩
      = (tryFromSecsF64 (.finite 2 1)).map some ∧
    startupTimeoutOf
        ⟨some "echo", none, none, none, none, none, some 700, none⟩
      = .ok (some (durationFromMillis 700)) ∧
    (∃ e, mcpServerConfigDeserialize
        ⟨some "echo", none, none, none, none, some (.finite (-1) 1),
          none, none⟩ = .error e) ∧
    McpServerConfig.startupTimeoutSec
        ⟨.stdio "echo" [] none, some 1500000000, none⟩ = some 1500000000 :=
  ⟨C9_startup_timeout_sec_precedence_and_validation.1
      ⟨some "echo", none, none, none, none, some (.finite 2 1),
        some 700, none⟩ (.finite 2 1) rfl,
   C9_startup_timeout_sec_precedence_and_validation.2.1
      ⟨some "echo", none, none, none, none, none, some 700, none⟩
      700 rfl rfl,
   C9_startup_timeout_sec_precedence_and_validation.2.2.1
      ⟨some "echo", none, none, none, none, some (.finite (-1) 1),
        none, none⟩ (.finite (-1) 1) rfl
      (Or.inr (Or.inr (Or.inr ⟨-1, 1, rfl, by decide⟩))),
   C9_startup_timeout_sec_precedence_and_validation.2.2.2
      ⟨some "echo", none, none, none, none, some (.finite 3 2),
        none, none⟩ (.finite 3 2)
      ⟨.stdio "echo" [] none, some 1500000000, none⟩ 1500000000
      rfl (by rfl) (by rfl)⟩

/-! ## Headless JSON event processor
(src/codex-rs/exec/src/experimental_event_processor_with_json_output.rs) -/

/-- Decimal digit to character, for rendering `format!("item_{}", n)`. -/
def digitChar (d : Nat) : Char :=
  match d with
  | 0 => '0' | 1 => '1' | 2 => '2' | 3 => '3' | 4 => '4'
  | 5 => '5' | 6 => '6' | 7 => '7' | 8 => '8' | 9 => '9'
  | _ => '*'

/-- Left inverse of `digitChar` on digits. -/
def digitVal (c : Char) : Nat :=
  match c with
  | '0' => 0 | '1' => 1 | '2' => 2 | '3' => 3 | '4' => 4
  | '5' => 5 | '6' => 6 | '7' => 7 | '8' => 8 | '9' => 9
  | _ => 10

theorem digitVal_digitChar (d : Nat) (hd : d < 10) :
    digitVal (digitChar d) = d := by
  interval_cases d <;> rfl

/-- Decimal rendering of a natural number (the `Display` of `u64` used by
`format!("item_{}", ..)`). -/
def natDecimal (n : Nat) : String :=
  if n = 0 then "0" else ⟨(Nat.digits 10 n).reverse.map digitChar⟩

theorem map_digitChar_inj (l1 l2 : List Nat) (h1 : ∀ d ∈ l1, d < 10)
    (h2 : ∀ d ∈ l2, d < 10) (h : l1.map digitChar = l2.map digitChar) :
    l1 = l2 := by
  induction l1 generalizing l2 with
  | nil =>
      cases l2 with
      | nil => rfl
      | cons b t2 => simp at h
  | cons a t ih =>
      cases l2 with
      | nil => simp at h
      | cons b t2 =>
          simp only [List.map_cons, List.cons.injEq] at h
          have ha : a = b := by
            have := congrArg digitVal h.1
            rwa [digitVal_digitChar a (h1 a (List.mem_cons_self a t)),
              digitVal_digitChar b (h2 b (List.mem_cons_self b t2))] at this
          subst ha
          rw [ih t2 (fun d hd => h1 d (List.mem_cons_of_mem _ hd))
            (fun d hd => h2 d (List.mem_cons_of_mem _ hd)) h.2]

theorem digits_reverse_map_ne_zero_str (n : Nat) (hn : n ≠ 0) :
    (⟨(Nat.digits 10 n).reverse.map digitChar⟩ : String) ≠ "0" := by
  intro h
  have hdata : (Nat.digits 10 n).reverse.map digitChar = ['0'] :=
    congrArg String.data h
  have hrev : (Nat.digits 10 n).reverse = [0] := by
    refine map_digitChar_inj _ [0] ?_ (by simp) ?_
    · intro d hd
      exact Nat.digits_lt_base (by norm_num) (List.mem_reverse.mp hd)
    · simpa [digitChar] using hdata
  have hdig : Nat.digits 10 n = [0] := by
    have := congrArg List.reverse hrev
    simpa using this
  have : n = 0 := by
    have hof := Nat.ofDigits_digits 10 n
    rw [hdig] at hof
    simpa [Nat.ofDigits] using hof.symm
  exact hn this

theorem natDecimal_injective : Function.Injective natDecimal := by
  intro m n h
  unfold natDecimal at h
  by_cases hm : m = 0 <;> by_cases hn : n = 0
  · rw [hm, hn]
  · rw [if_pos hm, if_neg hn] at h
    exact absurd h.symm (digits_reverse_map_ne_zero_str n hn)
  · rw [if_neg hm, if_pos hn] at h
    exact absurd h (digits_reverse_map_ne_zero_str m hm)
  · rw [if_neg hm, if_neg hn] at h
    have hdata : (Nat.digits 10 m).reverse.map digitChar
        = (Nat.digits 10 n).reverse.map digitChar := congrArg String.data h
    have hrev := map_digitChar_inj _ _
      (fun d hd => Nat.digits_lt_base (by norm_num) (List.mem_reverse.mp hd))
      (fun d hd => Nat.digits_lt_base (by norm_num) (List.mem_reverse.mp hd))
      hdata
    have hdig : Nat.digits 10 m = Nat.digits 10 n := by
      have := congrArg List.reverse hrev
      simpa using this
    calc m = Nat.ofDigits 10 (Nat.digits 10 m) := (Nat.ofDigits_digits 10 m).symm
      _ = Nat.ofDigits 10 (Nat.digits 10 n) := by rw [hdig]
      _ = n := Nat.ofDigits_digits 10 n

/-- `format!("item_{}", n)` (`get_next_item_id`). -/
def itemIdString (n : Nat) : String := "item_" ++ natDecimal n

theorem itemIdString_injective : Function.Injective itemIdString := by
  intro m n h
  apply natDecimal_injective
  have hdata : ("item_" ++ natDecimal m).data
      = ("item_" ++ natDecimal n).data := congrArg String.data h
  rw [String.data_append, String.data_append] at hdata
  exact String.ext (List.append_cancel_left hdata)

/-- `HashMap::get` on an association list with unique keys. -/
def mapLookup {α : Type} : List (String × α) → String → Option α
  | [], _ => none
  | (k1, v1) :: rest, k => if k1 = k then some v1 else mapLookup rest k

/-- `HashMap::insert`: replace the value of an existing key, else append. -/
def mapInsert {α : Type} : List (String × α) → String → α → List (String × α)
  | [], k, v => [(k, v)]
  | (k1, v1) :: rest, k, v =>
      if k1 = k then (k1, v) :: rest else (k1, v1) :: mapInsert rest k v

/-- `HashMap::remove`: drop the binding of the key. -/
def mapRemove {α : Type} (m : List (String × α)) (k : String) :
    List (String × α) :=
  m.filter (fun p => p.1 ≠ k)

theorem mapLookup_mapInsert_self {α : Type} (m : List (String × α))
    (k : String) (v : α) : mapLookup (mapInsert m k v) k = some v := by
  induction m with
  | nil => simp [mapInsert, mapLookup]
  | cons p rest ih =>
      by_cases h : p.1 = k
      · simp [mapInsert, mapLookup, h]
      · simp [mapInsert, mapLookup, h, ih]

/-- `ExecCommandBeginEvent` (codex_core::protocol), the fields the
processor reads. -/
structure ExecCommandBeginEvent where
  callId : String
  command : List String
  deriving DecidableEq

/-- `ExecCommandEndEvent`, the fields the processor reads. -/
structure ExecCommandEndEvent where
  callId : String
  aggregatedOutput : String
  exitCode : Int
  deriving DecidableEq

/-- `FileChange` (codex_core::protocol), reduced to its three tags: the
processor only inspects the variant. -/
inductive FileChange where
  | add
  | delete
  | update
  deriving DecidableEq

/-- `PatchApplyBeginEvent`, the fields the processor reads; paths are
already rendered (`to_str().unwrap_or("")`). -/
structure PatchApplyBeginEvent where
  callId : String
  changes : List (String × FileChange)
  deriving DecidableEq

/-- `PatchApplyEndEvent`, the fields the processor reads. -/
structure PatchApplyEndEvent where
  callId : String
  success : Bool
  deriving DecidableEq

/-- `CommandExecutionStatus` (crate::exec_events). -/
inductive CommandExecutionStatus where
  | inProgress
  | completed
  | failed
  deriving DecidableEq

/-- `PatchApplyStatus` (crate::exec_events). -/
inductive PatchApplyStatus where
  | completed
  | failed
  deriving DecidableEq

/-- `PatchChangeKind` (crate::exec_events). -/
inductive PatchChangeKind where
  | add
  | delete
  | update
  deriving DecidableEq

/-- `CommandExecutionItem` (crate::exec_events). -/
structure CommandExecutionItem where
  command : String
  aggregatedOutput : String
  exitCode : Option Int
  status : CommandExecutionStatus
  deriving DecidableEq

/-- `FileUpdateChange` (crate::exec_events). -/
structure FileUpdateChange where
  path : String
  kind : PatchChangeKind
  deriving DecidableEq

/-- `FileChangeItem` (crate::exec_events). -/
structure FileChangeItem where
  changes : List FileUpdateChange
  status : PatchApplyStatus
  deriving DecidableEq

/-- `ConversationItemDetails` (crate::exec_events), restricted to the two
variants the exec/patch handlers construct. -/
inductive ConversationItemDetails where
  | commandExecution (item : CommandExecutionItem)
  | fileChange (item : FileChangeItem)
  deriving DecidableEq

/-- `ConversationItem` (crate::exec_events). -/
structure ConversationItem where
  id : String
  details : ConversationItemDetails
  deriving DecidableEq

/-- `ConversationEvent` (crate::exec_events), restricted to the variants
the exec/patch handlers emit. -/
inductive ConversationEvent where
  | itemStarted (item : ConversationItem)
  | itemCompleted (item : ConversationItem)
  deriving DecidableEq

/-- `RunningCommand` (experimental_event_processor...rs:58-62). -/
structure RunningCommand where
  command : String
  itemId : String
  deriving DecidableEq

/-- The processor state the exec/patch claims observe: the `next_event_id`
counter and the two call-id registries (`running_commands`,
`running_patch_applies`). -/
structure ProcessorState where
  nextEventId : Nat
  runningCommands : List (String × RunningCommand)
  runningPatchApplies : List (String × PatchApplyBeginEvent)
  deriving DecidableEq

/-- `handle_exec_command_begin` (lines 154-187).  `shlex::try_join` with
its `join(" ")` fallback is an external crate, abstracted as the argument
`joinCmd`.  A fresh `item_{next_event_id}` id is drawn, the command is
registered under its call id, and one in-progress `ItemStarted` command
execution item is emitted. -/
def handleExecCommandBegin (joinCmd : List String → String)
    (s : ProcessorState) (ev : ExecCommandBeginEvent) :
    ProcessorState × List ConversationEvent :=
  let itemId := itemIdString s.nextEventId
  let commandString := joinCmd ev.command
  (⟨s.nextEventId + 1,
    mapInsert s.runningCommands ev.callId ⟨commandString, itemId⟩,
    s.runningPatchApplies⟩,
   [.itemStarted ⟨itemId,
      .commandExecution ⟨commandString, "", none, .inProgress⟩⟩])

/-- `handle_exec_command_end` (lines 235-263): an unmatched end is
dropped; a matched one removes the registration and emits one
`ItemCompleted` reusing the stored item id, with the end event's
aggregated output and exit code, completed iff `exit_code == 0`. -/
def handleExecCommandEnd (s : ProcessorState) (ev : ExecCommandEndEvent) :
    ProcessorState × List ConversationEvent :=
  match mapLookup s.runningCommands ev.callId with
  | none => (s, [])
  | some rc =>
      (⟨s.nextEventId, mapRemove s.runningCommands ev.callId,
        s.runningPatchApplies⟩,
       [.itemCompleted ⟨rc.itemId,
          .commandExecution ⟨rc.command, ev.aggregatedOutput,
            some ev.exitCode,
            if ev.exitCode = 0 then .completed else .failed⟩⟩])

/-- `handle_patch_apply_begin` (lines 189-194): register the begin event
under its call id, emit nothing. -/
def handlePatchApplyBegin (s : ProcessorState) (ev : PatchApplyBeginEvent) :
    ProcessorState × List ConversationEvent :=
  (⟨s.nextEventId, s.runningCommands,
    mapInsert s.runningPatchApplies ev.callId ev⟩, [])

/-- `map_change_kind` (lines 196-202). -/
def mapChangeKind (kind : FileChange) : PatchChangeKind :=
  match kind with
  | .add => .add
  | .delete => .delete
  | .update => .update

/-- `handle_patch_apply_end` (lines 204-233): an unmatched end is dropped;
a matched one emits one `ItemCompleted` file-change item with a fresh id,
completed iff `success`. -/
def handlePatchApplyEnd (s : ProcessorState) (ev : PatchApplyEndEvent) :
    ProcessorState × List ConversationEvent :=
  match mapLookup s.runningPatchApplies ev.callId with
  | none => (s, [])
  | some running =>
      (⟨s.nextEventId + 1, s.runningCommands,
        mapRemove s.runningPatchApplies ev.callId⟩,
       [.itemCompleted ⟨itemIdString s.nextEventId,
          .fileChange ⟨running.changes.map
              (fun pc => ⟨pc.1, mapChangeKind pc.2⟩),
            if ev.success then .completed else .failed⟩⟩])

/-- The event payloads dispatched to the four exec/patch handlers of
`collect_conversation_events` (lines 82-108); the remaining arms of the
source match (session, agent message, reasoning, token count, task
lifecycle, plan updates, errors) do not touch the command/patch
registries. -/
inductive ProcEventMsg where
  | execCommandBegin (ev : ExecCommandBeginEvent)
  | execCommandEnd (ev : ExecCommandEndEvent)
  | patchApplyBegin (ev : PatchApplyBeginEvent)
  | patchApplyEnd (ev : PatchApplyEndEvent)

/-- `collect_conversation_events`, restricted to the exec/patch arms. -/
def collectConversationEvents (joinCmd : List String → String)
    (s : ProcessorState) (msg : ProcEventMsg) :
    ProcessorState × List ConversationEvent :=
  match msg with
  | .execCommandBegin ev => handleExecCommandBegin joinCmd s ev
  | .execCommandEnd ev => handleExecCommandEnd s ev
  | .patchApplyBegin ev => handlePatchApplyBegin s ev
  | .patchApplyEnd ev => handlePatchApplyEnd s ev

/-- C8: processing `ExecCommandBegin` emits one `ItemStarted` command
execution item with the fresh `item_{next_event_id}` id (the counter
increments and the id map is injective, so ids never repeat within a run),
empty aggregated output, no exit code and in-progress status; the
subsequent `ExecCommandEnd` with the same call id emits one
`ItemCompleted` reusing the same item id, carrying the end event's
aggregated output and exit code, completed exactly when `exit_code == 0`
and failed otherwise. -/
theorem C8_exec_begin_end_item_lifecycle :
    (∀ (joinCmd : List String → String) (s : ProcessorState)
        (ev : ExecCommandBeginEvent),
      (handleExecCommandBegin joinCmd s ev).2
        = [.itemStarted ⟨itemIdString s.nextEventId,
            .commandExecution ⟨joinCmd ev.command, "", none, .inProgress⟩⟩] ∧
      (handleExecCommandBegin joinCmd s ev).1.nextEventId
        = s.nextEventId + 1 ∧
      mapLookup (handleExecCommandBegin joinCmd s ev).1.runningCommands
          ev.callId
        = some ⟨joinCmd ev.command, itemIdString s.nextEventId⟩) ∧
    (∀ m n : Nat, itemIdString m = itemIdString n → m = n) ∧
    (∀ (s : ProcessorState) (ev : ExecCommandEndEvent)
        (rc : RunningCommand),
      mapLookup s.runningCommands ev.callId = some rc →
      (handleExecCommandEnd s ev).2
        = [.itemCompleted ⟨rc.itemId,
            .commandExecution ⟨rc.command, ev.aggregatedOutput,
              some ev.exitCode,
              if ev.exitCode = 0 then .completed else .failed⟩⟩]) ∧
    (∀ ec : Int,
      ((if ec = 0 then CommandExecutionStatus.completed
        else CommandExecutionStatus.failed)
          = CommandExecutionStatus.completed) ↔ ec = 0) ∧
    (∀ (joinCmd : List String → String) (s : ProcessorState)
        (ev : ExecCommandBeginEvent) (endEv : ExecCommandEndEvent),
      endEv.callId = ev.callId →
      (handleExecCommandEnd (handleExecCommandBegin joinCmd s ev).1
          endEv).2
        = [.itemCompleted ⟨itemIdString s.nextEventId,
            .commandExecution ⟨joinCmd ev.command, endEv.aggregatedOutput,
              some endEv.exitCode,
              if endEv.exitCode = 0 then .completed else .failed⟩⟩]) := by
  have hbegin : ∀ (joinCmd : List String → String) (s : ProcessorState)
      (ev : ExecCommandBeginEvent),
      mapLookup (handleExecCommandBegin joinCmd s ev).1.runningCommands
          ev.callId
        = some ⟨joinCmd ev.command, itemIdString s.nextEventId⟩ := by
    intro joinCmd s ev
    simp [handleExecCommandBegin, mapLookup_mapInsert_self]
  have hend : ∀ (s : ProcessorState) (ev : ExecCommandEndEvent)
      (rc : RunningCommand),
      mapLookup s.runningCommands ev.callId = some rc →
      (handleExecCommandEnd s ev).2
        = [.itemCompleted ⟨rc.itemId,
            .commandExecution ⟨rc.command, ev.aggregatedOutput,
              some ev.exitCode,
              if ev.exitCode = 0 then .completed else .failed⟩⟩] := by
    intro s ev rc h
    simp [handleExecCommandEnd, h]
  refine ⟨?_, ?_, hend, ?_, ?_⟩
  · intro joinCmd s ev
    exact ⟨rfl, rfl, hbegin joinCmd s ev⟩
  · intro m n h
    exact itemIdString_injective h
  · intro ec
    by_cases h : ec = 0 <;> simp [h]
  · intro joinCmd s ev endEv hcall
    have h := hbegin joinCmd s ev
    rw [← hcall] at h
    exact hend _ endEv ⟨joinCmd ev.command, itemIdString s.nextEventId⟩ h

/-- Witness for C8 at concrete inputs: a begin for call `call-1` in a
fresh processor, an end matched against a registered command, the status
test at exit code 0, and an immediate begin/end round trip. -/
theorem C8_exec_begin_end_item_lifecycle_witness :
    ((handleExecCommandBegin (String.intercalate " ") ⟨0, [], []⟩
        ⟨"call-1", ["echo", "hi"]⟩).2
      = [.itemStarted ⟨itemIdString 0,
          .commandExecution ⟨String.intercalate " " ["echo", "hi"], "",
            none, .inProgress⟩⟩] ∧
      (handleExecCommandBegin (String.intercalate " ") ⟨0, [], []⟩
        ⟨"call-1", ["echo", "hi"]⟩).1.nextEventId = 0 + 1 ∧
      mapLookup (handleExecCommandBegin (String.intercalate " ")
          ⟨0, [], []⟩ ⟨"call-1", ["echo", "hi"]⟩).1.runningCommands "call-1"
        = some ⟨String.intercalate " " ["echo", "hi"], itemIdString 0⟩) ∧
    (3 : Nat) = 3 ∧
    (handleExecCommandEnd
        ⟨5, [("call-1", ⟨"echo hi", "item_2"⟩)], []⟩
        ⟨"call-1", "hi\n", 0⟩).2
      = [.itemCompleted ⟨"item_2",
          .commandExecution ⟨"echo hi", "hi\n", some 0,
            if (0 : Int) = 0 then .completed else .failed⟩⟩] ∧
    (((if (0 : Int) = 0 then CommandExecutionStatus.completed
        else CommandExecutionStatus.failed)
          = CommandExecutionStatus.completed) ↔ (0 : Int) = 0) ∧
    (handleExecCommandEnd (handleExecCommandBegin (String.intercalate " ")
        ⟨0, [], []⟩ ⟨"call-1", ["echo", "hi"]⟩).1
        ⟨"call-1", "hi\n", 1⟩).2
      = [.itemCompleted ⟨itemIdString 0,
          .commandExecution ⟨String.intercalate " " ["echo", "hi"], "hi\n",
            some 1, if (1 : Int) = 0 then .completed else .failed⟩⟩] :=
  ⟨C8_exec_begin_end_item_lifecycle.1 (String.intercalate " ") ⟨0, [], []⟩
      ⟨"call-1", ["echo", "hi"]⟩,
   C8_exec_begin_end_item_lifecycle.2.1 3 3 rfl,
   C8_exec_begin_end_item_lifecycle.2.2.1
      ⟨5, [("call-1", ⟨"echo hi", "item_2"⟩)], []⟩ ⟨"call-1", "hi\n", 0⟩
      ⟨"echo hi", "item_2"⟩ rfl,
   C8_exec_begin_end_item_lifecycle.2.2.2.1 0,
   C8_exec_begin_end_item_lifecycle.2.2.2.2 (String.intercalate " ")
      ⟨0, [], []⟩ ⟨"call-1", ["echo", "hi"]⟩ ⟨"call-1", "hi\n", 1⟩ rfl⟩

/-- C10: an `ExecCommandEnd` or `PatchApplyEnd` whose call id was never
registered by a matching begin makes `collect_conversation_events` return
the empty list, leaving the state untouched and failing nothing. -/
theorem C10_unmatched_end_events_dropped :
    (∀ (joinCmd : List String → String) (s : ProcessorState)
        (ev : ExecCommandEndEvent),
      mapLookup s.runningCommands ev.callId = none →
      collectConversationEvents joinCmd s (.execCommandEnd ev) = (s, [])) ∧
    (∀ (joinCmd : List String → String) (s : ProcessorState)
        (ev : PatchApplyEndEvent),
      mapLookup s.runningPatchApplies ev.callId = none →
      collectConversationEvents joinCmd s (.patchApplyEnd ev) = (s, [])) := by
  refine ⟨?_, ?_⟩
  · intro joinCmd s ev h
    simp [collectConversationEvents, handleExecCommandEnd, h]
  · intro joinCmd s ev h
    simp [collectConversationEvents, handlePatchApplyEnd, h]

/-- Witness for C10 at concrete inputs: an exec end and a patch end with
unknown call ids against a processor that registered neither. -/
theorem C10_unmatched_end_events_dropped_witness :
    collectConversationEvents (String.intercalate " ")
        ⟨7, [("other", ⟨"ls", "item_0"⟩)], []⟩
        (.execCommandEnd ⟨"call-9", "out", 0⟩)
      = (⟨7, [("other", ⟨"ls", "item_0"⟩)], []⟩, []) ∧
    collectConversationEvents (String.intercalate " ") ⟨0, [], []⟩
        (.patchApplyEnd ⟨"call-9", true⟩)
      = (⟨0, [], []⟩, []) :=
  ⟨C10_unmatched_end_events_dropped.1 (String.intercalate " ")
      ⟨7, [("other", ⟨"ls", "item_0"⟩)], []⟩ ⟨"call-9", "out", 0⟩ rfl,
   C10_unmatched_end_events_dropped.2 (String.intercalate " ") ⟨0, [], []⟩
      ⟨"call-9", true⟩ rfl⟩

end Codex
